import Mathlib

/-!
Verification of the Stock Analytics and Alert Engine.

This file gives a shallow embedding, in Lean, of the core of the
stock-alerts repository and proves properties of that embedding:

* the metrics calculator (rolling 200-day mean, percent deviation,
  linear-interpolation percentiles, zone classification, streaks) from
  src/services/stock_service.py;
* the retry loop of the upstream data client from
  src/utils/tiingo_client.py;
* the periodic alert engine (day gate, per-symbol processing, per-user
  batching and dispatch) from src/features/periodic_checker.py and
  src/webhook_handler.py;
* the symbol-keyed caches from
  src/database/repositories/stock_repository.py.

Machine floats of the source are modelled as rationals; external state
(the clock weekday, the HTTP responses, the database store) is passed
explicitly as arguments.
-/

set_option maxRecDepth 40000

/-- Floor of a nonnegative rational as a natural number, as numpy and
pandas compute the index base of a linear-interpolation quantile. -/
def floorNat (h : ℚ) : ℕ := h.num.toNat / h.den

theorem floorNat_eq_floor (h : ℚ) (h0 : 0 ≤ h) : (floorNat h : ℤ) = ⌊h⌋ := by
  rw [Rat.floor_def, floorNat]
  push_cast
  rw [Int.toNat_of_nonneg (Rat.num_nonneg.mpr h0)]

theorem floorNat_cast_le (h : ℚ) (h0 : 0 ≤ h) : (floorNat h : ℚ) ≤ h := by
  have : ((floorNat h : ℤ) : ℚ) ≤ h := by
    rw [floorNat_eq_floor h h0]
    exact Int.floor_le h
  exact_mod_cast this

theorem lt_floorNat_add_one (h : ℚ) (h0 : 0 ≤ h) : h < (floorNat h : ℚ) + 1 := by
  have : h < ((floorNat h : ℤ) : ℚ) + 1 := by
    rw [floorNat_eq_floor h h0]
    exact Int.lt_floor_add_one h
  exact_mod_cast this

theorem floorNat_mono (a b : ℚ) (ha : 0 ≤ a) (hab : a ≤ b) :
    floorNat a ≤ floorNat b := by
  have hb : 0 ≤ b := le_trans ha hab
  have : (floorNat a : ℤ) ≤ (floorNat b : ℤ) := by
    rw [floorNat_eq_floor a ha, floorNat_eq_floor b hb]
    exact Int.floor_mono hab
  exact_mod_cast this

theorem floorNat_le_of_le_nat (h : ℚ) (n : ℕ) (hle : h ≤ (n : ℚ)) :
    floorNat h ≤ n := by
  by_cases h0 : 0 ≤ h
  · have : (floorNat h : ℤ) ≤ (n : ℤ) := by
      rw [floorNat_eq_floor h h0]
      calc ⌊h⌋ ≤ ⌊(n : ℚ)⌋ := Int.floor_mono hle
        _ = (n : ℤ) := Int.floor_natCast n
    exact_mod_cast this
  · have : h.num < 0 := by
      rw [not_le] at h0
      exact Rat.num_neg.mpr h0
    simp [floorNat, Int.toNat_of_nonpos (le_of_lt this)]

/-- Linear interpolation into a sorted list at fractional index h, the
common core of numpy percentile and pandas Series.quantile with the
default linear interpolation. -/
def interpSorted (s : List ℚ) (h : ℚ) : ℚ :=
  let i : ℕ := floorNat h
  let g : ℚ := h - (i : ℚ)
  if i + 1 < s.length then s.getD i 0 + g * (s.getD (i + 1) 0 - s.getD i 0)
  else s.getD i 0

/-- The q-quantile (0 le q le 1) of a list of rationals with linear
interpolation: the value at fractional position q * (n - 1) of the
sorted list. This is numpy.percentile(xs, 100 * q) and pandas
Series.quantile(q), both used by the source. -/
def quantileLinear (q : ℚ) (xs : List ℚ) : ℚ :=
  let s := List.insertionSort (· ≤ ·) xs
  if s.length = 0 then 0
  else interpSorted s (q * ((s.length : ℚ) - 1))

theorem sorted_getD_mono (s : List ℚ) (hs : List.Sorted (· ≤ ·) s) (i j : ℕ)
    (hij : i ≤ j) (hj : j < s.length) : s.getD i 0 ≤ s.getD j 0 := by
  have hi : i < s.length := lt_of_le_of_lt hij hj
  rw [List.getD_eq_getElem?_getD, List.getElem?_eq_getElem hi,
      List.getD_eq_getElem?_getD, List.getElem?_eq_getElem hj]
  exact hs.rel_get_of_le (by exact hij)

theorem interpSorted_mono (s : List ℚ) (hs : List.Sorted (· ≤ ·) s)
    (h1 h2 : ℚ) (h01 : 0 ≤ h1) (h12 : h1 ≤ h2)
    (hub : h2 ≤ (s.length : ℚ) - 1) :
    interpSorted s h1 ≤ interpSorted s h2 := by
  have h02 : 0 ≤ h2 := le_trans h01 h12
  have hn : 1 ≤ s.length := by
    rcases Nat.eq_zero_or_pos s.length with hz | hp
    · rw [hz] at hub
      norm_num at hub
      linarith
    · exact hp
  have hii : floorNat h1 ≤ floorNat h2 := floorNat_mono h1 h2 h01 h12
  have hi2n : floorNat h2 ≤ s.length - 1 := by
    apply floorNat_le_of_le_nat
    have hcast : ((s.length - 1 : ℕ) : ℚ) = (s.length : ℚ) - 1 := by
      push_cast [Nat.cast_sub hn]
      ring
    rw [hcast]
    exact hub
  have hi2lt : floorNat h2 < s.length :=
    lt_of_le_of_lt hi2n (Nat.sub_lt (lt_of_lt_of_le Nat.zero_lt_one hn) Nat.one_pos)
  have hg1lb : 0 ≤ h1 - (floorNat h1 : ℚ) := by
    have := floorNat_cast_le h1 h01
    linarith
  have hg1ub : h1 - (floorNat h1 : ℚ) < 1 := by
    have := lt_floorNat_add_one h1 h01
    linarith
  have hg2lb : 0 ≤ h2 - (floorNat h2 : ℚ) := by
    have := floorNat_cast_le h2 h02
    linarith
  rcases eq_or_lt_of_le hii with heq | hlt
  · -- same base index: compare the interpolation weights
    simp only [interpSorted, ← heq]
    by_cases hcase : floorNat h1 + 1 < s.length
    · rw [if_pos hcase, if_pos hcase]
      have hdelta : 0 ≤ s.getD (floorNat h1 + 1) 0 - s.getD (floorNat h1) 0 := by
        have := sorted_getD_mono s hs (floorNat h1) (floorNat h1 + 1)
          (Nat.le_succ (floorNat h1)) hcase
        linarith
      have hg : h1 - (floorNat h1 : ℚ) ≤ h2 - (floorNat h1 : ℚ) := by linarith
      nlinarith [mul_le_mul_of_nonneg_right hg hdelta]
    · rw [if_neg hcase, if_neg hcase]
  · -- h1 falls in an earlier segment than h2
    have hi1succ : floorNat h1 + 1 < s.length := by omega
    have step1 : interpSorted s h1 ≤ s.getD (floorNat h1 + 1) 0 := by
      simp only [interpSorted]
      rw [if_pos hi1succ]
      have hdelta : 0 ≤ s.getD (floorNat h1 + 1) 0 - s.getD (floorNat h1) 0 := by
        have := sorted_getD_mono s hs (floorNat h1) (floorNat h1 + 1)
          (Nat.le_succ (floorNat h1)) hi1succ
        linarith
      have hg1le : h1 - (floorNat h1 : ℚ) ≤ 1 := le_of_lt hg1ub
      nlinarith [mul_le_mul_of_nonneg_right hg1le hdelta]
    have step2 : s.getD (floorNat h1 + 1) 0 ≤ s.getD (floorNat h2) 0 :=
      sorted_getD_mono s hs (floorNat h1 + 1) (floorNat h2) hlt hi2lt
    have step3 : s.getD (floorNat h2) 0 ≤ interpSorted s h2 := by
      simp only [interpSorted]
      by_cases hcase : floorNat h2 + 1 < s.length
      · rw [if_pos hcase]
        have hdelta : 0 ≤ s.getD (floorNat h2 + 1) 0 - s.getD (floorNat h2) 0 := by
          have := sorted_getD_mono s hs (floorNat h2) (floorNat h2 + 1)
            (Nat.le_succ (floorNat h2)) hcase
          linarith
        nlinarith [mul_nonneg hg2lb hdelta]
      · rw [if_neg hcase]
    linarith

/-- Quantiles with linear interpolation are monotone in the requested
probability, for any nonempty data list. -/
theorem quantileLinear_mono (xs : List ℚ) (q1 q2 : ℚ) (h0 : 0 ≤ q1)
    (h12 : q1 ≤ q2) (h21 : q2 ≤ 1) (hne : xs ≠ []) :
    quantileLinear q1 xs ≤ quantileLinear q2 xs := by
  have hlen : (List.insertionSort (· ≤ ·) xs).length = xs.length :=
    (List.perm_insertionSort (· ≤ ·) xs).length_eq
  have hpos : 0 < xs.length := List.length_pos.mpr hne
  rw [quantileLinear, quantileLinear]
  simp only [hlen]
  rw [if_neg (Nat.pos_iff_ne_zero.mp hpos), if_neg (Nat.pos_iff_ne_zero.mp hpos)]
  have hsorted : List.Sorted (· ≤ ·) (List.insertionSort (· ≤ ·) xs) :=
    List.sorted_insertionSort (· ≤ ·) xs
  have hnn : (0 : ℚ) ≤ (xs.length : ℚ) - 1 := by
    have : (1 : ℚ) ≤ (xs.length : ℚ) := by exact_mod_cast hpos
    linarith
  apply interpSorted_mono _ hsorted
  · exact mul_nonneg h0 hnn
  · exact mul_le_mul_of_nonneg_right h12 hnn
  · rw [hlen]
    nlinarith

/-- Rolling simple moving average with window w over a list of closes,
as pandas Series.rolling(window=w).mean(): undefined (none) until a full
window of w points is available. Mirrors
stock_service.calculate_metrics and periodic_checker. -/
def rollingMean (w : ℕ) (xs : List ℚ) : List (Option ℚ) :=
  (List.range xs.length).map (fun i =>
    if w ≤ i + 1 then some ((((xs.take (i + 1)).drop (i + 1 - w)).sum) / (w : ℚ)) else none)

/-- Percent deviation series: (close - ma200) / ma200 * 100, undefined
where the moving average is undefined. -/
def pctDiffs (closes : List ℚ) : List (Option ℚ) :=
  (closes.zip (rollingMean 200 closes)).map (fun p =>
    p.2.map (fun m => (p.1 - m) / m * 100))

/-- The defined deviation points, in order: the dropna of the pct_diff
column. -/
def validDeviations (closes : List ℚ) : List ℚ :=
  (pctDiffs closes).filterMap id

/-- Zone classification of a deviation against the percentile band, from
the current_zone logic of stock_service.calculate_trading_stats. -/
inductive Zone
  | fear
  | greed
  | neutral
deriving DecidableEq, Repr

/-- fear when the deviation is at or below p16, greed when at or above
p84 (and above p16), neutral otherwise, following the if / elif / else
of the source. -/
def zoneOf (d p16 p84 : ℚ) : Zone :=
  if d ≤ p16 then Zone.fear
  else if p84 ≤ d then Zone.greed
  else Zone.neutral

/-- The alert trigger condition of periodic_checker process_symbol:
current_pct_diff at or below percentile_16, or at or above
percentile_84. -/
def alert_condition (d p16 p84 : ℚ) : Bool :=
  d ≤ p16 || p84 ≤ d

/-- Streak computation from stock_service calculate_streaks, written
with the tail of the fold explicit: current is the length of the run
in progress. -/
def streaksAux (cond : ℚ → Bool) : List ℚ → ℕ → List ℕ
  | [], current => if 0 < current then [current] else []
  | v :: rest, current =>
    if cond v then streaksAux cond rest (current + 1)
    else if 0 < current then current :: streaksAux cond rest 0
    else streaksAux cond rest 0

/-- Lengths of maximal consecutive runs satisfying cond, in order, from
stock_service calculate_streaks. -/
def calculate_streaks (data : List ℚ) (cond : ℚ → Bool) : List ℕ :=
  streaksAux cond data 0

/-- Display periods accepted by stock_service.calculate_metrics. -/
inductive Period
  | y1
  | y3
  | y5
  | max
deriving DecidableEq, Repr

/-- Years of history a display period keeps; none means the whole
series. -/
def periodYears : Period → Option ℕ
  | Period.y1 => some 1
  | Period.y3 => some 3
  | Period.y5 => some 5
  | Period.max => none

/-- A fully annotated point of the series: date (as a day number),
close, moving average and percent deviation. -/
structure MetricsRow where
  date : ℤ
  price : ℚ
  ma200 : Option ℚ
  pctDiff : Option ℚ
deriving DecidableEq, Repr

/-- The answer of the metrics calculation: the (display filtered) series
plus the percentiles computed over the whole history. -/
structure MetricsResult where
  rows : List MetricsRow
  p16 : ℚ
  p84 : ℚ
  previousClose : Option ℚ
deriving DecidableEq, Repr

/-- Annotate the complete fetched series with MA200 and pct_diff
columns, as stock_service.calculate_metrics does before any display
filtering. -/
def annotateSeries (data : List (ℤ × ℚ)) : List MetricsRow :=
  let mas := rollingMean 200 (data.map (fun p => p.2))
  (data.zip mas).map (fun p =>
    ⟨p.1.1, p.1.2, p.2, p.2.map (fun m => (p.1.2 - m) / m * 100)⟩)

/-- Keep only the rows inside the display period: for an N year period
the rows whose date is at or after now minus N * 365 days, for max all
rows, as the start_date filter of stock_service.calculate_metrics. -/
def filterByPeriod (period : Period) (now : ℤ) (rows : List MetricsRow) : List MetricsRow :=
  match periodYears period with
  | none => rows
  | some y => rows.filter (fun r => decide (now - (y : ℤ) * 365 ≤ r.date))

/-- The fresh-fetch path of stock_service.calculate_metrics: annotate
the complete history, refuse with none (the InsufficientData 400 error)
when fewer than 20 defined deviations exist, compute p16 and p84 over
all defined deviations of the whole history with numpy.percentile, and
only then filter the rows by the display period. -/
def calculate_metrics (data : List (ℤ × ℚ)) (period : Period) (now : ℤ) :
    Option MetricsResult :=
  let rows := annotateSeries data
  let valid := rows.filterMap (fun r => r.pctDiff)
  if valid.length < 20 then none
  else
    some ⟨filterByPeriod period now rows,
          quantileLinear (16 / 100) valid,
          quantileLinear (84 / 100) valid,
          if 2 ≤ data.length then some ((data.getD (data.length - 2) (0, 0)).2) else none⟩

/-- Restriction of an already computed metrics answer to a display
period: filter the rows, keep the percentiles. Stated from the spec to
compare with calculate_metrics. -/
def restrictMetrics (period : Period) (now : ℤ) (r : MetricsResult) : MetricsResult :=
  ⟨filterByPeriod period now r.rows, r.p16, r.p84, r.previousClose⟩

/-- What one call of TiingoClient.fetch_historical_data did: the backoff
delays slept, the returned data (none on failure), and how many HTTP
attempts were issued. -/
structure FetchOutcome where
  delays : List ℚ
  result : Option (List ℚ)
  attempts : ℕ
deriving DecidableEq, Repr

/-- The retry loop of TiingoClient.fetch_historical_data, recursing on
the remaining iterations of range(max_retries). status gives the HTTP
status of each attempt (200 for success), body the decoded list of
closes of a successful response, jitter the random.uniform(0, 1) draw of
each attempt. On 429 and on 5xx the code sleeps 2 ^ attempt + jitter and
retries, except on the last attempt, where the loop just ends; on 404
and any other 4xx it gives up at once; a 200 with an empty body returns
none. -/
def fetchLoop (status : ℕ → ℕ) (body : ℕ → List ℚ) (jitter : ℕ → ℚ)
    (max_retries : ℕ) (attempt : ℕ) : ℕ → FetchOutcome
  | 0 => ⟨[], none, 0⟩
  | fuel + 1 =>
    let s := status attempt
    if s = 200 then
      if body attempt = [] then ⟨[], none, 1⟩
      else ⟨[], some (body attempt), 1⟩
    else if s = 429 ∨ 500 ≤ s then
      if attempt < max_retries - 1 then
        let rest := fetchLoop status body jitter max_retries (attempt + 1) fuel
        ⟨((2 : ℚ) ^ attempt + jitter attempt) :: rest.delays, rest.result, rest.attempts + 1⟩
      else
        let rest := fetchLoop status body jitter max_retries (attempt + 1) fuel
        ⟨rest.delays, rest.result, rest.attempts + 1⟩
    else if s = 404 then ⟨[], none, 1⟩
    else ⟨[], none, 1⟩

/-- TiingoClient.fetch_historical_data as a function of the response
sequence: run the retry loop from attempt 0 with max_retries iterations
available; falling out of the loop returns none. -/
def fetch_historical_data (status : ℕ → ℕ) (body : ℕ → List ℚ) (jitter : ℕ → ℚ)
    (max_retries : ℕ) : FetchOutcome :=
  fetchLoop status body jitter max_retries 0 max_retries

/-- A stock cache record as periodic_checker process_symbol reads it:
last_price and ma_200 columns plus the optional percentiles object of
the cached JSON payload (none when the payload lacks the key, which
makes the code fall through to a fresh fetch). -/
structure CachedRec where
  lastPrice : ℚ
  ma200 : ℚ
  percentiles : Option (ℚ × ℚ)
deriving DecidableEq, Repr

/-- The alert payload built by periodic_checker process_symbol. -/
structure AlertData where
  symbol : String
  price : ℚ
  percentile : ℚ
  percentile16 : ℚ
  percentile84 : ℚ
deriving DecidableEq, Repr

/-- What processing one symbol did: upstream fetches issued, cache
upserts written, and the alert payload if the symbol triggered. -/
structure ProcResult where
  fetchCount : ℕ
  upsertCount : ℕ
  alert : Option AlertData
deriving DecidableEq, Repr

/-- The fresh-fetch branch of periodic_checker process_symbol: on a
failed fetch, or an empty frame, or no defined deviation points, return
none without touching the cache; otherwise compute price, MA200,
current deviation and the 16th and 84th quantiles of the defined
deviations, upsert the cache, and return an alert payload exactly when
the trigger condition holds. A zero moving average raises
ZeroDivisionError in the source, caught by the outer handler before the
upsert, and is modelled by the early none. -/
def processFresh (symbol : String) (fetched : Option (List ℚ)) : ProcResult :=
  match fetched with
  | none => ⟨1, 0, none⟩
  | some closes =>
    if closes = [] then ⟨1, 0, none⟩
    else
      let valid := validDeviations closes
      if valid = [] then ⟨1, 0, none⟩
      else
        let price := closes.getD (closes.length - 1) 0
        let ma := ((rollingMean 200 closes).getD (closes.length - 1) none).getD 0
        if ma = 0 then ⟨1, 0, none⟩
        else
          let d := (price - ma) / ma * 100
          let p16 := quantileLinear (16 / 100) valid
          let p84 := quantileLinear (84 / 100) valid
          if d ≤ p16 ∨ p84 ≤ d then ⟨1, 1, some ⟨symbol, price, d, p16, p84⟩⟩
          else ⟨1, 1, none⟩

/-- periodic_checker process_symbol: use a fresh enough cache record
when it has percentiles (no fetch, no write), otherwise fall through to
the fresh fetch. A zero cached moving average raises ZeroDivisionError
in the source, caught by the outer handler, hence none. -/
def process_symbol (symbol : String) (cached : Option CachedRec)
    (fetched : Option (List ℚ)) : ProcResult :=
  match cached with
  | some c =>
    match c.percentiles with
    | some pp =>
      if c.ma200 = 0 then ⟨0, 0, none⟩
      else
        let d := (c.lastPrice - c.ma200) / c.ma200 * 100
        if d ≤ pp.1 ∨ pp.2 ≤ d then
          ⟨0, 0, some ⟨symbol, c.lastPrice, d, pp.1, pp.2⟩⟩
        else ⟨0, 0, none⟩
    | none => processFresh symbol fetched
  | none => processFresh symbol fetched

/-- One row of the active watchlist join: a user watching a symbol,
with the ownership flag. -/
structure WatchItem where
  userId : String
  symbol : String
  isOwned : Bool
deriving DecidableEq, Repr

/-- An alert payload tagged with the ownership flag of one watcher, as
check_watchlists copies alert_data and adds is_owned before
accumulating it per user. -/
structure BatchAlert where
  alert : AlertData
  isOwned : Bool
deriving DecidableEq, Repr

/-- Delivery status of an alert history row. -/
inductive AlertStatus
  | sent
  | failed
  | skipped
deriving DecidableEq, Repr

/-- An append-only alert history row as add_alert_history writes it. -/
structure HistoryRow where
  userId : String
  symbol : String
  price : ℚ
  percentile : ℚ
  status : AlertStatus
deriving DecidableEq, Repr

/-- The weekday allow-list of the day gates (0 = Monday, 6 = Sunday):
Monday to Thursday and Sunday. -/
def validDays : List ℕ := [0, 1, 2, 3, 6]

/-- What one webhook_handler.send_batched_alert call did: the returned
success flag, the history rows written, and the content of the Telegram
message if one was composed and sent (position alerts first, then
watchlist alerts). -/
structure SendResult where
  success : Bool
  rows : List HistoryRow
  message : Option (List BatchAlert)
deriving DecidableEq, Repr

/-- webhook_handler.send_batched_alert: nothing for an empty batch; on a
disallowed weekday log every alert as skipped and return false;
otherwise compose one message listing owned position alerts before
watchlist alerts, send it (sendOK says whether the transport succeeded),
and write one history row per alert with status sent or failed. -/
def send_batched_alert (weekday : ℕ) (sendOK : Bool) (userId : String)
    (alerts : List BatchAlert) : SendResult :=
  if alerts = [] then ⟨true, [], none⟩
  else if weekday ∉ validDays then
    ⟨false,
     alerts.map (fun a => ⟨userId, a.alert.symbol, a.alert.price, a.alert.percentile,
       AlertStatus.skipped⟩),
     none⟩
  else
    let ordered := alerts.filter (fun a => a.isOwned) ++ alerts.filter (fun a => !a.isOwned)
    ⟨sendOK,
     alerts.map (fun a => ⟨userId, a.alert.symbol, a.alert.price, a.alert.percentile,
       if sendOK then AlertStatus.sent else AlertStatus.failed⟩),
     some ordered⟩

/-- periodic_checker send_batched_alerts together with the notification
service plumbing: one send_batched_alert call per user that has any
pending alerts, in accumulator order. Returns the messages sent and the
history rows written. -/
def send_batched_alerts (weekday : ℕ) (sendOK : String → Bool) :
    List (String × List BatchAlert) → List (String × List BatchAlert) × List HistoryRow
  | [] => ([], [])
  | (u, alerts) :: rest =>
    if alerts = [] then send_batched_alerts weekday sendOK rest
    else
      let r := send_batched_alert weekday (sendOK u) u alerts
      let rec_rest := send_batched_alerts weekday sendOK rest
      ((match r.message with
        | some m => [(u, m)]
        | none => []) ++ rec_rest.1,
       r.rows ++ rec_rest.2)

/-- Append one tagged alert to a user's pending batch, keeping the
insertion order of users, as appending to a defaultdict list does. -/
def pushAlert (m : List (String × List BatchAlert)) (u : String) (b : BatchAlert) :
    List (String × List BatchAlert) :=
  match m with
  | [] => [(u, [b])]
  | (v, bs) :: rest =>
    if v = u then (v, bs ++ [b]) :: rest
    else (v, bs) :: pushAlert rest u b

/-- Fan a triggering symbol's alert out to every watcher of that symbol,
tagging each copy with that watcher's ownership flag. -/
def accumulateForSymbol (watchlists : List WatchItem) (s : String) (a : AlertData)
    (m : List (String × List BatchAlert)) : List (String × List BatchAlert) :=
  (watchlists.filter (fun it => it.symbol == s)).foldl
    (fun acc it => pushAlert acc it.userId ⟨a, it.isOwned⟩) m

/-- The distinct symbols of the watchlist in first-occurrence order, as
grouping into a defaultdict keyed by symbol produces them. -/
def dedupFirstAux (seen : List String) : List String → List String
  | [] => []
  | s :: rest =>
    if s ∈ seen then dedupFirstAux seen rest
    else s :: dedupFirstAux (s :: seen) rest

/-- The per-user pending-alert accumulator after the symbol loop: for
each distinct symbol whose processing produced an alert payload, the
payload is appended to every watcher's batch. -/
def buildUserAlerts (watchlists : List WatchItem)
    (results : List (String × ProcResult)) : List (String × List BatchAlert) :=
  results.foldl
    (fun m r =>
      match r.2.alert with
      | some a => accumulateForSymbol watchlists r.1 a m
      | none => m) []

/-- The observable effects of one check_watchlists run. -/
structure Effects where
  fetchCount : ℕ
  upsertCount : ℕ
  notifications : List (String × List BatchAlert)
  history : List HistoryRow
deriving DecidableEq, Repr

/-- periodic_checker check_watchlists: gate on the UTC weekday, return
at once on an empty watchlist, group the watchlist by symbol (each
distinct symbol processed once), process each symbol against the cache
and the fetch oracle, fan alerts out per user, and dispatch one batched
notification per user with pending alerts. The local weekday feeds the
second day gate inside send_batched_alert. -/
def check_watchlists (utcWeekday localWeekday : ℕ) (watchlists : List WatchItem)
    (cache : String → Option CachedRec) (fetch : String → Option (List ℚ))
    (sendOK : String → Bool) : Effects :=
  if utcWeekday ∉ validDays then ⟨0, 0, [], []⟩
  else if watchlists = [] then ⟨0, 0, [], []⟩
  else
    let syms := dedupFirstAux [] (watchlists.map (fun it => it.symbol))
    let results := syms.map (fun s => (s, process_symbol s (cache s) (fetch s)))
    let dispatched := send_batched_alerts localWeekday sendOK
      (buildUserAlerts watchlists results)
    ⟨(results.map (fun r => r.2.fetchCount)).sum,
     (results.map (fun r => r.2.upsertCount)).sum,
     dispatched.1, dispatched.2⟩

/-- Python str.upper restricted to the character-wise map, which agrees
with it on the ASCII symbols the repository handles. -/
def pyUpper (s : String) : String := ⟨s.data.map Char.toUpper⟩

/-- A row of the stock_cache table. -/
structure StockCacheRow where
  symbol : String
  lastCheck : ℚ
  lastPrice : ℚ
  ma200 : Option ℚ
  dataJson : String
deriving DecidableEq, Repr

/-- A row of the trading_stats_cache table. -/
structure TradingStatsRow where
  symbol : String
  period : String
  statsJson : String
  lastUpdated : ℚ
deriving DecidableEq, Repr

/-- StockRepository.update_stock_cache: insert or update keyed by the
uppercased symbol, stamping last_check with NOW(). The store is the
stock_cache table as a map from symbol to its row. -/
def update_stock_cache (store : String → Option StockCacheRow) (symbol : String)
    (price : ℚ) (ma200 : Option ℚ) (dataJson : String) (now : ℚ) :
    String → Option StockCacheRow :=
  fun k =>
    if k = pyUpper symbol then some ⟨pyUpper symbol, now, price, ma200, dataJson⟩
    else store k

/-- StockRepository.get_fresh_cache: look the uppercased symbol up and
return the row only when last_check is strictly newer than NOW() minus
max_age_hours. -/
def get_fresh_cache (store : String → Option StockCacheRow) (symbol : String)
    (maxAgeHours : ℚ) (now : ℚ) : Option StockCacheRow :=
  match store (pyUpper symbol) with
  | some row => if now - maxAgeHours < row.lastCheck then some row else none
  | none => none

/-- StockRepository.update_trading_stats_cache: insert or update keyed
by the uppercased symbol and the period. -/
def update_trading_stats_cache (store : String × String → Option TradingStatsRow)
    (symbol period statsJson : String) (now : ℚ) :
    String × String → Option TradingStatsRow :=
  fun k =>
    if k = (pyUpper symbol, period) then some ⟨pyUpper symbol, period, statsJson, now⟩
    else store k

/-- StockRepository.get_fresh_trading_stats_cache: look the uppercased
symbol and period up with the same freshness bound. -/
def get_fresh_trading_stats_cache (store : String × String → Option TradingStatsRow)
    (symbol period : String) (maxAgeHours : ℚ) (now : ℚ) : Option TradingStatsRow :=
  match store (pyUpper symbol, period) with
  | some row => if now - maxAgeHours < row.lastUpdated then some row else none
  | none => none

/-- C2: a run of the alert engine started on a weekday (UTC) outside
the allow-list Monday to Thursday and Sunday returns cleanly with zero
upstream fetches, zero cache writes, zero notifications and zero
history rows. -/
theorem check_watchlists_day_gate (utcWeekday localWeekday : ℕ)
    (watchlists : List WatchItem) (cache : String → Option CachedRec)
    (fetch : String → Option (List ℚ)) (sendOK : String → Bool)
    (h : utcWeekday ∉ validDays) :
    check_watchlists utcWeekday localWeekday watchlists cache fetch sendOK
      = ⟨0, 0, [], []⟩ := by
  simp [check_watchlists, h]

theorem check_watchlists_day_gate_witness :
    check_watchlists 4 4 [⟨"1", "AAPL", false⟩] (fun _ => none) (fun _ => none)
      (fun _ => true) = ⟨0, 0, [], []⟩ :=
  check_watchlists_day_gate 4 4 [⟨"1", "AAPL", false⟩] (fun _ => none) (fun _ => none)
    (fun _ => true) (by decide)

/-- C6 counterexample: at d = p16 = p84 = 0 the code classifies the
zone as fear, while the claim, read at these thresholds, demands greed
if and only if d is at or above p84; the equivalence fails there. -/
theorem zoneOf_greed_iff_fails : ¬ (zoneOf 0 0 0 = Zone.greed ↔ (0 : ℚ) ≥ 0) := by
  decide!

/-- C6 (amended): when p16 is strictly below p84, the zone is fear
exactly when d is at or below p16, greed exactly when d is at or above
p84, neutral exactly when d lies strictly between them, with both
boundaries inclusive; and the alert trigger of the periodic checker
fires exactly when the zone is not neutral. -/
theorem zoneOf_correct (d p16 p84 : ℚ) (hband : p16 < p84) :
    (zoneOf d p16 p84 = Zone.fear ↔ d ≤ p16) ∧
    (zoneOf d p16 p84 = Zone.greed ↔ p84 ≤ d) ∧
    (zoneOf d p16 p84 = Zone.neutral ↔ (p16 < d ∧ d < p84)) ∧
    (alert_condition d p16 p84 = true ↔ zoneOf d p16 p84 ≠ Zone.neutral) := by
  by_cases h1 : d ≤ p16
  · have h2 : ¬ p84 ≤ d := by linarith
    simp [zoneOf, alert_condition, h1, h2]
  · by_cases h2 : p84 ≤ d
    · simp [zoneOf, alert_condition, h1, h2]
    · simp [zoneOf, alert_condition, h1, h2]
      constructor
      · linarith
      · linarith

theorem zoneOf_correct_witness :
    (zoneOf 0 (-1) 1 = Zone.fear ↔ (0 : ℚ) ≤ -1) ∧
    (zoneOf 0 (-1) 1 = Zone.greed ↔ (1 : ℚ) ≤ 0) ∧
    (zoneOf 0 (-1) 1 = Zone.neutral ↔ ((-1 : ℚ) < 0 ∧ (0 : ℚ) < 1)) ∧
    (alert_condition 0 (-1) 1 = true ↔ zoneOf 0 (-1) 1 ≠ Zone.neutral) :=
  zoneOf_correct 0 (-1) 1 (by norm_num)

/-- C8: over any deviation series with at least 20 defined points the
16th percentile is at most the 84th percentile. -/
theorem percentiles_monotone (devs : List ℚ) (h20 : 20 ≤ devs.length) :
    quantileLinear (16 / 100) devs ≤ quantileLinear (84 / 100) devs := by
  apply quantileLinear_mono devs (16 / 100) (84 / 100) (by norm_num) (by norm_num)
    (by norm_num)
  intro hnil
  rw [hnil] at h20
  simp at h20

theorem percentiles_monotone_witness :
    quantileLinear (16 / 100) ((List.range 20).map (fun n => (n : ℚ)))
      ≤ quantileLinear (84 / 100) ((List.range 20).map (fun n => (n : ℚ))) :=
  percentiles_monotone ((List.range 20).map (fun n => (n : ℚ))) (by decide)

theorem streaksAux_all_pos (cond : ℚ → Bool) (data : List ℚ) :
    ∀ current, ∀ s ∈ streaksAux cond data current, 1 ≤ s := by
  induction data with
  | nil =>
    intro current s hs
    by_cases h : 0 < current
    · simp [streaksAux, h] at hs
      omega
    · simp [streaksAux, h] at hs
  | cons v rest ih =>
    intro current s hs
    by_cases hc : cond v
    · exact ih (current + 1) s (by simpa [streaksAux, hc] using hs)
    · by_cases h : 0 < current
      · simp only [streaksAux, hc, if_false, Bool.false_eq_true, if_pos h] at hs
        rcases List.mem_cons.mp hs with rfl | hs2
        · omega
        · exact ih 0 s hs2
      · exact ih 0 s (by simpa [streaksAux, hc, h] using hs)

theorem streaksAux_sum (cond : ℚ → Bool) (data : List ℚ) :
    ∀ current, (streaksAux cond data current).sum
      = current + (data.filter cond).length := by
  induction data with
  | nil =>
    intro current
    by_cases h : 0 < current <;> simp [streaksAux, h] <;> omega
  | cons v rest ih =>
    intro current
    by_cases hc : cond v
    · simp [streaksAux, hc, ih (current + 1)]
      omega
    · by_cases h : 0 < current <;> simp [streaksAux, hc, h, ih 0]
      omega

/-- C9: every streak length is at least 1 and the streak lengths sum to
the number of elements satisfying the predicate, so the streaks
partition exactly the satisfying elements into maximal runs. -/
theorem calculate_streaks_correct (data : List ℚ) (cond : ℚ → Bool) :
    (∀ s ∈ calculate_streaks data cond, 1 ≤ s) ∧
    (calculate_streaks data cond).sum = (data.filter cond).length := by
  constructor
  · exact streaksAux_all_pos cond data 0
  · simpa using streaksAux_sum cond data 0

/-- C10: both caches normalize the symbol key to uppercase, so an
upsert under one casing followed by a fresh read under any casing with
the same uppercasing returns the record just written, for any positive
freshness window. -/
theorem cache_symbol_case_insensitive (store : String → Option StockCacheRow)
    (statsStore : String × String → Option TradingStatsRow)
    (s t period : String) (price : ℚ) (ma200 : Option ℚ)
    (dataJson statsJson : String) (maxAgeHours now : ℚ)
    (hcase : pyUpper t = pyUpper s) (hage : 0 < maxAgeHours) :
    get_fresh_cache (update_stock_cache store s price ma200 dataJson now) t
        maxAgeHours now
      = some ⟨pyUpper s, now, price, ma200, dataJson⟩ ∧
    get_fresh_trading_stats_cache
        (update_trading_stats_cache statsStore s period statsJson now) t period
        maxAgeHours now
      = some ⟨pyUpper s, period, statsJson, now⟩ := by
  constructor
  · simp [get_fresh_cache, update_stock_cache, hcase, sub_lt_self_iff, hage]
  · simp [get_fresh_trading_stats_cache, update_trading_stats_cache, hcase,
      sub_lt_self_iff, hage]

theorem cache_symbol_case_insensitive_witness :
    get_fresh_cache
        (update_stock_cache (fun _ => none) "aapl" 1 none "d" 0) "AaPl" 1 0
      = some ⟨pyUpper "aapl", 0, 1, none, "d"⟩ ∧
    get_fresh_trading_stats_cache
        (update_trading_stats_cache (fun _ => none) "aapl" "1y" "s" 0) "AaPl" "1y" 1 0
      = some ⟨pyUpper "aapl", "1y", "s", 0⟩ :=
  cache_symbol_case_insensitive (fun _ => none) (fun _ => none) "aapl" "AaPl" "1y"
    1 none "d" "s" 1 0 (by decide) (by norm_num)

/-- C7: the display period never feeds the percentile computation: for
any period the metrics answer equals the full-history (max) answer with
only its rows filtered by the period, and in particular the returned
p16 and p84 are identical across all periods. -/
theorem calculate_metrics_period_only_filters (data : List (ℤ × ℚ)) (period : Period)
    (now : ℤ) :
    calculate_metrics data period now
      = (calculate_metrics data Period.max now).map (restrictMetrics period now) ∧
    ∀ p1 p2 : Period,
      (calculate_metrics data p1 now).map (fun r => (r.p16, r.p84))
        = (calculate_metrics data p2 now).map (fun r => (r.p16, r.p84)) := by
  constructor
  · unfold calculate_metrics
    by_cases h : ((annotateSeries data).filterMap (fun r => r.pctDiff)).length < 20
    · simp [h]
    · simp [h, restrictMetrics, filterByPeriod, periodYears]
  · intro p1 p2
    unfold calculate_metrics
    by_cases h : ((annotateSeries data).filterMap (fun r => r.pctDiff)).length < 20
    · simp [h]
    · simp [h]

theorem fetchLoop_429_none (status : ℕ → ℕ) (body : ℕ → List ℚ) (jitter : ℕ → ℚ)
    (hstatus : ∀ a, status a = 429) (mr : ℕ) :
    ∀ fuel attempt, (fetchLoop status body jitter mr attempt fuel).result = none := by
  intro fuel
  induction fuel with
  | zero => intro attempt; rfl
  | succ n ih =>
    intro attempt
    by_cases h : attempt < mr - 1 <;> simp [fetchLoop, hstatus attempt, h, ih]

/-- C3 counterexample: with max_retries = 3 and every attempt answered
429, the client performs two backoff delays across three HTTP attempts
and then returns none; it does not perform three delays, and there is
no fourth attempt. -/
theorem fetch_429_three_retries_cex :
    (fetch_historical_data (fun _ => 429) (fun _ => []) (fun _ => 0) 3).delays.length = 2 ∧
    (fetch_historical_data (fun _ => 429) (fun _ => []) (fun _ => 0) 3).attempts = 3 ∧
    (fetch_historical_data (fun _ => 429) (fun _ => []) (fun _ => 0) 3).result = none ∧
    (fetch_historical_data (fun _ => 429) (fun _ => []) (fun _ => 0) 3).delays.length ≠ 3 := by
  decide!

/-- C3 (amended): with max_retries = 3 and every attempt answered 429,
the client sleeps exactly the two increasing backoff delays
2 ^ 0 + jitter and 2 ^ 1 + jitter, issues three attempts, and returns
none after the third; and for any max_retries, exhausting retries on
429 returns none. -/
theorem fetch_429_exhaustion (status : ℕ → ℕ) (body : ℕ → List ℚ) (jitter : ℕ → ℚ)
    (hstatus : ∀ a, status a = 429)
    (hjitter : ∀ a, 0 ≤ jitter a ∧ jitter a < 1) :
    (fetch_historical_data status body jitter 3).delays
      = [1 + jitter 0, 2 + jitter 1] ∧
    1 + jitter 0 < 2 + jitter 1 ∧
    (fetch_historical_data status body jitter 3).result = none ∧
    (fetch_historical_data status body jitter 3).attempts = 3 ∧
    ∀ max_retries : ℕ,
      (fetch_historical_data status body jitter max_retries).result = none := by
  refine ⟨?_, ?_, ?_, ?_, ?_⟩
  · simp [fetch_historical_data, fetchLoop, hstatus]
  · have h0 := hjitter 0
    have h1 := hjitter 1
    linarith [h0.2, h1.1]
  · exact fetchLoop_429_none status body jitter hstatus 3 3 0
  · simp [fetch_historical_data, fetchLoop, hstatus]
  · intro mr
    exact fetchLoop_429_none status body jitter hstatus mr mr 0

theorem fetch_429_exhaustion_witness :
    (fetch_historical_data (fun _ => 429) (fun _ => []) (fun _ => 1 / 2) 3).delays
      = [1 + (1 : ℚ) / 2, 2 + (1 : ℚ) / 2] ∧
    1 + (1 : ℚ) / 2 < 2 + (1 : ℚ) / 2 ∧
    (fetch_historical_data (fun _ => 429) (fun _ => []) (fun _ => 1 / 2) 3).result = none ∧
    (fetch_historical_data (fun _ => 429) (fun _ => []) (fun _ => 1 / 2) 3).attempts = 3 ∧
    ∀ max_retries : ℕ,
      (fetch_historical_data (fun _ => 429) (fun _ => []) (fun _ => 1 / 2)
        max_retries).result = none :=
  fetch_429_exhaustion (fun _ => 429) (fun _ => []) (fun _ => 1 / 2)
    (fun _ => rfl) (fun _ => by norm_num)

theorem validDeviations_eq_nil_of_short (closes : List ℚ)
    (h : closes.length < 200) : validDeviations closes = [] := by
  unfold validDeviations
  rw [List.filterMap_eq_nil]
  intro o ho
  unfold pctDiffs at ho
  rcases List.mem_map.mp ho with ⟨p, hp, rfl⟩
  have hp2 := (List.mem_zip hp).2
  unfold rollingMean at hp2
  rcases List.mem_map.mp hp2 with ⟨i, hi, hieq⟩
  rw [List.mem_range] at hi
  have hcond : ¬ (200 ≤ i + 1) := by omega
  rw [← hieq]
  simp [hcond]

theorem le_length_of_valid_ne_nil (closes : List ℚ)
    (h : validDeviations closes ≠ []) : 200 ≤ closes.length := by
  by_contra hlt
  push_neg at hlt
  exact h (validDeviations_eq_nil_of_short closes hlt)

theorem rollingMean_getD_last (closes : List ℚ) (h : 200 ≤ closes.length) :
    (rollingMean 200 closes).getD (closes.length - 1) none
      = some ((closes.drop (closes.length - 200)).sum / 200) := by
  have hlt : closes.length - 1 < closes.length := by omega
  unfold rollingMean
  rw [List.getD_eq_getElem?_getD, List.getElem?_map, List.getElem?_range hlt]
  have hcond : 200 ≤ (closes.length - 1) + 1 := by omega
  simp only [Option.map_some', Option.getD_some, if_pos hcond]
  have htake : closes.length - 1 + 1 = closes.length := by omega
  rw [htake, List.take_length]
  norm_num

theorem window_mean_pos (closes : List ℚ) (hpos : ∀ c ∈ closes, 0 < c)
    (h : 200 ≤ closes.length) :
    0 < (closes.drop (closes.length - 200)).sum / 200 := by
  apply div_pos _ (by norm_num : (0 : ℚ) < 200)
  have hlen : (closes.drop (closes.length - 200)).length = 200 := by
    rw [List.length_drop]
    omega
  have hne : closes.drop (closes.length - 200) ≠ [] := by
    intro hnil
    rw [hnil] at hlen
    simp at hlen
  exact List.sum_pos _ (fun x hx => hpos x (List.mem_of_mem_drop hx)) hne

/-- C1 (amended): in the periodic checker, after a successful fresh
fetch of positive closes, the threshold for skipping is zero defined
deviation points, not twenty: with no defined deviation the symbol is
skipped with no cache write at all, while with at least one defined
deviation (even fewer than twenty) the cache is upserted and alert
evaluation proceeds. -/
theorem process_symbol_insufficient_data (symbol : String) (closes : List ℚ)
    (hpos : ∀ c ∈ closes, 0 < c) :
    (validDeviations closes = [] →
      process_symbol symbol none (some closes) = ⟨1, 0, none⟩) ∧
    (validDeviations closes ≠ [] →
      (process_symbol symbol none (some closes)).fetchCount = 1 ∧
      (process_symbol symbol none (some closes)).upsertCount = 1) := by
  constructor
  · intro hv
    by_cases hc : closes = []
    · simp [process_symbol, processFresh, hc]
    · simp [process_symbol, processFresh, hc, hv]
  · intro hv
    have hlen : 200 ≤ closes.length := le_length_of_valid_ne_nil closes hv
    have hc : closes ≠ [] := by
      intro hnil
      rw [hnil] at hlen
      simp at hlen
    have hma : ((rollingMean 200 closes).getD (closes.length - 1) none).getD 0
        = (closes.drop (closes.length - 200)).sum / 200 := by
      rw [rollingMean_getD_last closes hlen]
      rfl
    have hmapos := window_mean_pos closes hpos hlen
    have key : ∃ oa, process_symbol symbol none (some closes)
        = ⟨1, 1, oa⟩ := by
      simp only [process_symbol, processFresh]
      rw [if_neg hc, if_neg hv, hma, if_neg (ne_of_gt hmapos)]
      split_ifs with halert
      · exact ⟨_, rfl⟩
      · exact ⟨_, rfl⟩
    rcases key with ⟨oa, hkey⟩
    rw [hkey]
    exact ⟨rfl, rfl⟩

/-- A 200 point series, flat at 100 with a final drop to 70: exactly
one defined deviation point. -/
def cexCloses : List ℚ := List.replicate 199 (100 : ℚ) ++ [70]

/-- C1 counterexample: on a fresh fetch of cexCloses the checker has a
single defined deviation point, far below twenty, yet it does not skip
alert evaluation (an alert payload is produced) and it does upsert the
cache; and on a fresh fetch of a one point series with zero defined
deviations it skips without writing the cache, against the claim that
the result is always upserted. -/
theorem process_symbol_insufficient_data_cex :
    (validDeviations cexCloses).length = 1 ∧
    (validDeviations cexCloses).length < 20 ∧
    (process_symbol "AAPL" none (some cexCloses)).alert ≠ none ∧
    (process_symbol "AAPL" none (some cexCloses)).upsertCount = 1 ∧
    validDeviations [(100 : ℚ)] = [] ∧
    process_symbol "AAPL" none (some [(100 : ℚ)]) = ⟨1, 0, none⟩ := by
  decide!

theorem process_symbol_insufficient_data_witness :
    (validDeviations cexCloses = [] →
      process_symbol "AAPL" none (some cexCloses) = ⟨1, 0, none⟩) ∧
    (validDeviations cexCloses ≠ [] →
      (process_symbol "AAPL" none (some cexCloses)).fetchCount = 1 ∧
      (process_symbol "AAPL" none (some cexCloses)).upsertCount = 1) :=
  process_symbol_insufficient_data "AAPL" cexCloses (by decide!)

theorem check_watchlists_run (utcWeekday localWeekday : ℕ)
    (watchlists : List WatchItem) (cache : String → Option CachedRec)
    (fetch : String → Option (List ℚ)) (sendOK : String → Bool)
    (hutc : utcWeekday ∈ validDays) (hw : watchlists ≠ []) :
    check_watchlists utcWeekday localWeekday watchlists cache fetch sendOK
      = (let syms := dedupFirstAux [] (watchlists.map (fun it => it.symbol))
         let results := syms.map (fun s => (s, process_symbol s (cache s) (fetch s)))
         let dispatched := send_batched_alerts localWeekday sendOK
           (buildUserAlerts watchlists results)
         ⟨(results.map (fun r => r.2.fetchCount)).sum,
          (results.map (fun r => r.2.upsertCount)).sum,
          dispatched.1, dispatched.2⟩) := by
  rw [check_watchlists, if_neg (not_not_intro hutc), if_neg hw]

theorem processFresh_alert_eq (symbol : String) (f : Option (List ℚ)) (a : AlertData)
    (h : (processFresh symbol f).alert = some a) :
    processFresh symbol f = ⟨1, 1, some a⟩ ∧ a.symbol = symbol := by
  cases f with
  | none => simp [processFresh] at h
  | some closes =>
    simp only [processFresh] at h ⊢
    split_ifs at h ⊢ <;> simp_all
    rw [← h]

/-- C4: when two distinct users watch the same symbol, the symbol is
not in the cache, and the fresh processing of the symbol triggers an
alert, one check cycle performs exactly one upstream fetch and exactly
one cache upsert for that symbol, but writes two alert history rows,
one per user. -/
theorem fanout_dedup_two_watchers (utcWeekday localWeekday : ℕ) (u1 u2 s : String)
    (o1 o2 : Bool) (cache : String → Option CachedRec)
    (fetch : String → Option (List ℚ)) (sendOK : String → Bool) (a : AlertData)
    (hutc : utcWeekday ∈ validDays) (hloc : localWeekday ∈ validDays)
    (hne : u1 ≠ u2) (hcache : cache s = none)
    (halert : (process_symbol s (cache s) (fetch s)).alert = some a) :
    (check_watchlists utcWeekday localWeekday [⟨u1, s, o1⟩, ⟨u2, s, o2⟩]
        cache fetch sendOK).fetchCount = 1 ∧
    (check_watchlists utcWeekday localWeekday [⟨u1, s, o1⟩, ⟨u2, s, o2⟩]
        cache fetch sendOK).upsertCount = 1 ∧
    (check_watchlists utcWeekday localWeekday [⟨u1, s, o1⟩, ⟨u2, s, o2⟩]
        cache fetch sendOK).history.map (fun r => (r.userId, r.symbol))
      = [(u1, s), (u2, s)] := by
  have hproc : process_symbol s (cache s) (fetch s) = ⟨1, 1, some a⟩ ∧ a.symbol = s := by
    rw [hcache] at halert ⊢
    exact processFresh_alert_eq s (fetch s) a halert
  have hw : ([⟨u1, s, o1⟩, ⟨u2, s, o2⟩] : List WatchItem) ≠ [] := by simp
  rw [check_watchlists_run utcWeekday localWeekday _ cache fetch sendOK hutc hw]
  refine ⟨?_, ?_, ?_⟩ <;>
    simp [dedupFirstAux, buildUserAlerts, accumulateForSymbol, pushAlert,
      send_batched_alerts, send_batched_alert, hproc.1, hproc.2, hne,
      not_not_intro hloc]

theorem fanout_dedup_two_watchers_witness :
    (check_watchlists 0 0 [⟨"1", "AAPL", true⟩, ⟨"2", "AAPL", false⟩]
        (fun _ => none) (fun _ => some cexCloses) (fun _ => true)).fetchCount = 1 ∧
    (check_watchlists 0 0 [⟨"1", "AAPL", true⟩, ⟨"2", "AAPL", false⟩]
        (fun _ => none) (fun _ => some cexCloses) (fun _ => true)).upsertCount = 1 ∧
    (check_watchlists 0 0 [⟨"1", "AAPL", true⟩, ⟨"2", "AAPL", false⟩]
        (fun _ => none) (fun _ => some cexCloses) (fun _ => true)).history.map
        (fun r => (r.userId, r.symbol))
      = [("1", "AAPL"), ("2", "AAPL")] :=
  fanout_dedup_two_watchers 0 0 "1" "2" "AAPL" true false
    (fun _ => none) (fun _ => some cexCloses) (fun _ => true)
    ⟨"AAPL", 70, -59700/1997, -59700/1997, -59700/1997⟩
    (by decide) (by decide) (by decide) rfl (by decide!)

theorem send_batched_alert_rows_user (weekday : ℕ) (ok : Bool) (u : String)
    (alerts : List BatchAlert) :
    ∀ r ∈ (send_batched_alert weekday ok u alerts).rows, r.userId = u := by
  intro r hr
  unfold send_batched_alert at hr
  split_ifs at hr
  · simp at hr
  · have hr2 : r ∈ alerts.map (fun a =>
        (⟨u, a.alert.symbol, a.alert.price, a.alert.percentile,
          AlertStatus.sent⟩ : HistoryRow)) := hr
    obtain ⟨x, hx, rfl⟩ := List.mem_map.mp hr2
    rfl
  · have hr2 : r ∈ alerts.map (fun a =>
        (⟨u, a.alert.symbol, a.alert.price, a.alert.percentile,
          AlertStatus.failed⟩ : HistoryRow)) := hr
    obtain ⟨x, hx, rfl⟩ := List.mem_map.mp hr2
    rfl
  · have hr2 : r ∈ alerts.map (fun a =>
        (⟨u, a.alert.symbol, a.alert.price, a.alert.percentile,
          AlertStatus.skipped⟩ : HistoryRow)) := hr
    obtain ⟨x, hx, rfl⟩ := List.mem_map.mp hr2
    rfl

theorem send_batched_alerts_keys (weekday : ℕ) (sendOK : String → Bool) :
    ∀ m : List (String × List BatchAlert),
      (∀ p ∈ (send_batched_alerts weekday sendOK m).1, p.1 ∈ m.map Prod.fst) ∧
      (∀ r ∈ (send_batched_alerts weekday sendOK m).2, r.userId ∈ m.map Prod.fst) := by
  intro m
  induction m with
  | nil => simp [send_batched_alerts]
  | cons hd tl ih =>
    obtain ⟨u, alerts⟩ := hd
    by_cases hnil : alerts = []
    · refine ⟨fun x hx => ?_, fun x hx => ?_⟩
      · exact List.mem_cons.mpr (Or.inr (ih.1 x
          (by simpa [send_batched_alerts, hnil] using hx)))
      · exact List.mem_cons.mpr (Or.inr (ih.2 x
          (by simpa [send_batched_alerts, hnil] using hx)))
    · refine ⟨fun x hx => ?_, fun x hx => ?_⟩
      · rw [send_batched_alerts, if_neg hnil] at hx
        rcases List.mem_append.mp hx with hx1 | hx2
        · rcases hmsg : (send_batched_alert weekday (sendOK u) u alerts).message with
            _ | msg
          · simp [hmsg] at hx1
          · rw [hmsg] at hx1
            rcases List.mem_singleton.mp hx1 with rfl
            exact List.mem_cons.mpr (Or.inl rfl)
        · exact List.mem_cons.mpr (Or.inr (ih.1 x hx2))
      · rw [send_batched_alerts, if_neg hnil] at hx
        rcases List.mem_append.mp hx with hx1 | hx2
        · rw [send_batched_alert_rows_user weekday (sendOK u) u alerts x hx1]
          exact List.mem_cons.mpr (Or.inl rfl)
        · exact List.mem_cons.mpr (Or.inr (ih.2 x hx2))

theorem pushAlert_keys (m : List (String × List BatchAlert)) (u : String)
    (b : BatchAlert) :
    (pushAlert m u b).map Prod.fst
      = if u ∈ m.map Prod.fst then m.map Prod.fst
        else m.map Prod.fst ++ [u] := by
  induction m with
  | nil => simp [pushAlert]
  | cons hd tl ih =>
    obtain ⟨v, bs⟩ := hd
    by_cases hv : v = u
    · subst hv
      simp [pushAlert]
    · by_cases hu : u ∈ tl.map Prod.fst <;>
        simp [pushAlert, hv, ih, hu, Ne.symm hv]

theorem pushAlert_keys_nodup (m : List (String × List BatchAlert)) (u : String)
    (b : BatchAlert) (h : (m.map Prod.fst).Nodup) :
    ((pushAlert m u b).map Prod.fst).Nodup := by
  rw [pushAlert_keys]
  by_cases hu : u ∈ m.map Prod.fst
  · simpa [hu] using h
  · rw [if_neg hu, List.nodup_append]
    exact ⟨h, List.nodup_singleton u, by simpa [List.disjoint_singleton] using hu⟩

theorem accumulate_foldl_keys_nodup (a : AlertData) :
    ∀ (l : List WatchItem) (m : List (String × List BatchAlert)),
      (m.map Prod.fst).Nodup →
      ((l.foldl (fun acc it => pushAlert acc it.userId ⟨a, it.isOwned⟩) m).map
        Prod.fst).Nodup := by
  intro l
  induction l with
  | nil =>
    intro m hm
    simpa using hm
  | cons hd tl ih =>
    intro m hm
    exact ih _ (pushAlert_keys_nodup m hd.userId ⟨a, hd.isOwned⟩ hm)

theorem buildUserAlerts_keys_nodup (watchlists : List WatchItem)
    (results : List (String × ProcResult)) :
    ((buildUserAlerts watchlists results).map Prod.fst).Nodup := by
  suffices h : ∀ (rs : List (String × ProcResult))
      (m : List (String × List BatchAlert)), (m.map Prod.fst).Nodup →
      ((rs.foldl (fun acc r =>
          match r.2.alert with
          | some a => accumulateForSymbol watchlists r.1 a acc
          | none => acc) m).map Prod.fst).Nodup by
    exact h results [] (by simp)
  intro rs
  induction rs with
  | nil =>
    intro m hm
    simpa using hm
  | cons hd tl ih =>
    intro m hm
    rcases halert : hd.2.alert with _ | a
    · simpa [List.foldl_cons, halert] using ih m hm
    · simp only [List.foldl_cons, halert]
      exact ih _ (accumulate_foldl_keys_nodup a _ m hm)

theorem send_batched_alerts_per_user (weekday : ℕ) (sendOK : String → Bool)
    (m : List (String × List BatchAlert)) (u : String) (alerts : List BatchAlert)
    (hday : weekday ∈ validDays) (hnodup : (m.map Prod.fst).Nodup)
    (hmem : (u, alerts) ∈ m) (hne : alerts ≠ []) :
    ((send_batched_alerts weekday sendOK m).1.filter (fun p => p.1 == u))
      = [(u, alerts.filter (fun b => b.isOwned)
            ++ alerts.filter (fun b => !b.isOwned))] ∧
    ((send_batched_alerts weekday sendOK m).2.filter (fun r => r.userId == u))
      = alerts.map (fun b => ⟨u, b.alert.symbol, b.alert.price, b.alert.percentile,
          if sendOK u then AlertStatus.sent else AlertStatus.failed⟩) := by
  induction m with
  | nil => simp at hmem
  | cons hd tl ih =>
    obtain ⟨v, bs⟩ := hd
    rw [List.map_cons, List.nodup_cons] at hnodup
    rcases List.mem_cons.mp hmem with heq | hmemtl
    · injection heq with h1 h2
      subst h1
      subst h2
      have hsend : send_batched_alert weekday (sendOK u) u alerts
          = ⟨sendOK u,
             alerts.map (fun b => ⟨u, b.alert.symbol, b.alert.price, b.alert.percentile,
               if sendOK u then AlertStatus.sent else AlertStatus.failed⟩),
             some (alerts.filter (fun b => b.isOwned)
               ++ alerts.filter (fun b => !b.isOwned))⟩ := by
        rw [send_batched_alert, if_neg hne, if_neg (not_not_intro hday)]
      have hkeys := send_batched_alerts_keys weekday sendOK tl
      have hfilter1 : ((send_batched_alerts weekday sendOK tl).1.filter
          (fun p => p.1 == u)) = [] := by
        rw [List.filter_eq_nil_iff]
        intro p hp
        have hmemk : p.1 ∈ tl.map Prod.fst := hkeys.1 p hp
        simp only [beq_iff_eq]
        intro hcon
        exact hnodup.1 (hcon ▸ hmemk)
      have hfilter2 : ((send_batched_alerts weekday sendOK tl).2.filter
          (fun r => r.userId == u)) = [] := by
        rw [List.filter_eq_nil_iff]
        intro p hp
        have hmemk : p.userId ∈ tl.map Prod.fst := hkeys.2 p hp
        simp only [beq_iff_eq]
        intro hcon
        exact hnodup.1 (hcon ▸ hmemk)
      have hrowsfull : ((alerts.map (fun b =>
          (⟨u, b.alert.symbol, b.alert.price, b.alert.percentile,
            if sendOK u then AlertStatus.sent else AlertStatus.failed⟩ :
              HistoryRow))).filter (fun r => r.userId == u))
          = alerts.map (fun b => ⟨u, b.alert.symbol, b.alert.price,
              b.alert.percentile,
              if sendOK u then AlertStatus.sent else AlertStatus.failed⟩) := by
        rw [List.filter_eq_self]
        intro r hr
        obtain ⟨x, hx, rfl⟩ := List.mem_map.mp hr
        simp
      constructor
      · simp [send_batched_alerts, hne, hsend, List.filter_append, hfilter1]
      · simp [send_batched_alerts, hne, hsend, List.filter_append, hfilter2,
          hrowsfull]
    · have hu : u ∈ tl.map Prod.fst := List.mem_map.mpr ⟨(u, alerts), hmemtl, rfl⟩
      have hvu : v ≠ u := fun h => hnodup.1 (h ▸ hu)
      have ihres := ih hnodup.2 hmemtl
      by_cases hbs : bs = []
      · simpa [send_batched_alerts, hbs] using ihres
      · have hnilrows : ((send_batched_alert weekday (sendOK v) v bs).rows.filter
            (fun r => r.userId == u)) = [] := by
          rw [List.filter_eq_nil_iff]
          intro r hr
          rw [send_batched_alert_rows_user weekday (sendOK v) v bs r hr]
          simp [hvu]
        rcases hmsg : (send_batched_alert weekday (sendOK v) v bs).message with _ | msg
        · constructor
          · simpa [send_batched_alerts, hbs, hmsg, List.filter_append] using ihres.1
          · simpa [send_batched_alerts, hbs, List.filter_append, hnilrows]
              using ihres.2
        · constructor
          · simpa [send_batched_alerts, hbs, hmsg, List.filter_append, hvu]
              using ihres.1
          · simpa [send_batched_alerts, hbs, List.filter_append, hnilrows]
              using ihres.2

/-- C5: in a check cycle, every user with a nonempty pending-alert
batch gets exactly one notification containing all of that user's
alerts, owned position alerts listed before watchlist-only alerts, and
one alert history row per alert of the batch, with status sent or
failed according to the delivery outcome for that user. -/
theorem batched_notification_per_user (utcWeekday localWeekday : ℕ)
    (watchlists : List WatchItem) (cache : String → Option CachedRec)
    (fetch : String → Option (List ℚ)) (sendOK : String → Bool)
    (u : String) (alerts : List BatchAlert)
    (hutc : utcWeekday ∈ validDays) (hloc : localWeekday ∈ validDays)
    (hw : watchlists ≠ [])
    (hmem : (u, alerts) ∈ buildUserAlerts watchlists
      ((dedupFirstAux [] (watchlists.map (fun it => it.symbol))).map
        (fun s => (s, process_symbol s (cache s) (fetch s)))))
    (hne : alerts ≠ []) :
    ((check_watchlists utcWeekday localWeekday watchlists cache fetch
        sendOK).notifications.filter (fun p => p.1 == u))
      = [(u, alerts.filter (fun b => b.isOwned)
            ++ alerts.filter (fun b => !b.isOwned))] ∧
    ((check_watchlists utcWeekday localWeekday watchlists cache fetch
        sendOK).history.filter (fun r => r.userId == u))
      = alerts.map (fun b => ⟨u, b.alert.symbol, b.alert.price, b.alert.percentile,
          if sendOK u then AlertStatus.sent else AlertStatus.failed⟩) := by
  rw [check_watchlists_run utcWeekday localWeekday watchlists cache fetch sendOK
    hutc hw]
  exact send_batched_alerts_per_user localWeekday sendOK _ u alerts hloc
    (buildUserAlerts_keys_nodup _ _) hmem hne

theorem batched_notification_per_user_witness :
    ((check_watchlists 0 0 [⟨"1", "A", true⟩, ⟨"1", "B", false⟩]
        (fun _ => none) (fun _ => some cexCloses) (fun _ => true)).notifications.filter
        (fun p => p.1 == "1"))
      = [("1",
          ([⟨⟨"A", 70, -59700/1997, -59700/1997, -59700/1997⟩, true⟩,
            ⟨⟨"B", 70, -59700/1997, -59700/1997, -59700/1997⟩, false⟩] :
            List BatchAlert).filter (fun b => b.isOwned)
          ++ ([⟨⟨"A", 70, -59700/1997, -59700/1997, -59700/1997⟩, true⟩,
            ⟨⟨"B", 70, -59700/1997, -59700/1997, -59700/1997⟩, false⟩] :
            List BatchAlert).filter (fun b => !b.isOwned))] ∧
    ((check_watchlists 0 0 [⟨"1", "A", true⟩, ⟨"1", "B", false⟩]
        (fun _ => none) (fun _ => some cexCloses) (fun _ => true)).history.filter
        (fun r => r.userId == "1"))
      = ([⟨⟨"A", 70, -59700/1997, -59700/1997, -59700/1997⟩, true⟩,
          ⟨⟨"B", 70, -59700/1997, -59700/1997, -59700/1997⟩, false⟩] :
          List BatchAlert).map
          (fun b => ⟨"1", b.alert.symbol, b.alert.price, b.alert.percentile,
            if (fun _ : String => true) "1" then AlertStatus.sent
            else AlertStatus.failed⟩) :=
  batched_notification_per_user 0 0 [⟨"1", "A", true⟩, ⟨"1", "B", false⟩]
    (fun _ => none) (fun _ => some cexCloses) (fun _ => true) "1"
    [⟨⟨"A", 70, -59700/1997, -59700/1997, -59700/1997⟩, true⟩,
     ⟨⟨"B", 70, -59700/1997, -59700/1997, -59700/1997⟩, false⟩]
    (by decide) (by decide) (by decide) (by decide!) (by decide)
